import Mathlib

/-!
Verification of the `subbers` game-management core: a shallow embedding of the
player substitution accounting (`src/player/core.rs`), the period/data model
(`src/game/data.rs`), the phase state machine (`src/game/state.rs`), the event
dispatcher (`src/game/event.rs`), the game aggregate (`src/game/core.rs`) and
the orchestration service over the storage contract (`src/svc.rs`,
`src/repo/core.rs`).

Timestamps are modelled as `Nat`; durations as `Int` (chrono `Duration` is
signed).  Every `Utc::now()` call in the source is modelled as one read from an
explicit `Clock`: a stream of timestamps together with the index of the next
read.  Fallible operations return `Except`.
-/

namespace Subbers

/-- A clock: `f` gives the wall-clock value of each successive read, `i` is the
index of the next read.  Each `Utc::now()` in the source consumes one read. -/
structure Clock where
  f : Nat → Nat
  i : Nat

/-- One `Utc::now()` read: return the current value and advance the clock. -/
def Clock.now (c : Clock) : Nat × Clock :=
  (c.f c.i, ⟨c.f, c.i + 1⟩)

/-- A clock whose readings never decrease over time. -/
def Clock.Mono (f : Nat → Nat) : Prop :=
  ∀ j k : Nat, j ≤ k → f j ≤ f k

/-! ## Player accounting (`src/player/core.rs`) -/

/-- `Player` from `src/player/core.rs`. -/
structure Player where
  id : Nat
  name : String
  number : Nat
  play_count : Nat
  play_start_time : Option Nat
  play_duration : Int
deriving DecidableEq

/-- `Player::new`. -/
def Player.new (id : Nat) (number : Nat) (name : String) : Player :=
  ⟨id, name, number, 0, none, 0⟩

/-- `Player::is_playing`. -/
def Player.is_playing (p : Player) : Bool :=
  p.play_start_time.isSome

/-- `Player::sub_on`: no-op when already playing, otherwise increment
`play_count` and set `play_start_time` to now. -/
def Player.sub_on (p : Player) (c : Clock) : Player × Clock :=
  if p.is_playing then (p, c)
  else
    let (t, c1) := c.now
    ({ p with play_count := p.play_count + 1, play_start_time := some t }, c1)

/-- `Player::sub_off`: no-op when not playing, otherwise add `now -
play_start_time` to `play_duration` and clear `play_start_time`. -/
def Player.sub_off (p : Player) (c : Clock) : Player × Clock :=
  if ! p.is_playing then (p, c)
  else
    match p.play_start_time with
    | some st =>
      let (t, c1) := c.now
      ({ p with play_duration := p.play_duration + ((t : Int) - (st : Int)),
                play_start_time := none }, c1)
    | none => ({ p with play_start_time := none }, c)

/-- `Player::add_stats`: unconditionally add to the cumulative totals. -/
def Player.add_stats (p : Player) (play_count : Nat) (play_duration : Int) : Player :=
  { p with play_count := p.play_count + play_count,
           play_duration := p.play_duration + play_duration }

/-- `Player::reset_stats`: identity fields preserved, accounting zeroed. -/
def Player.reset_stats (p : Player) : Player :=
  { p with play_count := 0, play_start_time := none, play_duration := 0 }

/-! ## Period and shared data (`src/game/data.rs`) -/

/-- `Period` from `src/game/data.rs`. -/
structure Period where
  start_time : Nat
  end_time : Option Nat
deriving DecidableEq

/-- `Period::new`. -/
def Period.new (start_time : Nat) : Period :=
  ⟨start_time, none⟩

/-- `Period::finish`. -/
def Period.finish (p : Period) (end_time : Nat) : Period :=
  { p with end_time := some end_time }

/-- `Data` from `src/game/data.rs`: the per-game shared payload. -/
structure Data where
  periods : List Period
  players : List Player
  mvp : Option Nat
deriving DecidableEq

/-! ## Phase state machine (`src/game/state.rs`) -/

/-- `InProgressState`. -/
structure InProgressState where
  start_time : Nat
deriving DecidableEq

/-- `PausedState`. -/
structure PausedState where
  start_time : Nat
deriving DecidableEq

/-- `FinishedState`. -/
structure FinishedState where
  start_time : Nat
  end_time : Nat
deriving DecidableEq

/-- `State` from `src/game/state.rs`: the four phases with their payloads. -/
inductive State where
  | NotStarted : State
  | InProgress : InProgressState → State
  | Paused : PausedState → State
  | Finished : FinishedState → State
deriving DecidableEq

/-- `GameState`: the payload-free phase kind. -/
inductive GameState where
  | NotStarted
  | InProgress
  | Paused
  | Finished
deriving DecidableEq

/-- `State::kind`. -/
def State.kind : State → GameState
  | State.NotStarted => GameState.NotStarted
  | State.InProgress _ => GameState.InProgress
  | State.Paused _ => GameState.Paused
  | State.Finished _ => GameState.Finished

/-- The pop / `finish` / push pattern used by `end_period` and `end_game`:
close the most recent period if any, otherwise leave the list alone. -/
def closeLastPeriod (periods : List Period) (end_time : Nat) : List Period :=
  match periods.getLast? with
  | some period => periods.dropLast ++ [period.finish end_time]
  | none => periods

/-- `GamePhase<NotStartedState>::start_game`: one `now` read; append a new open
period and record the phase start time. -/
def GamePhaseNotStarted.start_game (shared : Data) (c : Clock) :
    InProgressState × Data × Clock :=
  let (start_time, c1) := c.now
  (⟨start_time⟩,
   { shared with periods := shared.periods ++ [Period.new start_time] }, c1)

/-- `GamePhase<InProgressState>::end_period`: one `now` read; close the most
recent period; phase start time preserved. -/
def GamePhaseInProgress.end_period (self : InProgressState) (shared : Data)
    (c : Clock) : PausedState × Data × Clock :=
  let (end_time, c1) := c.now
  (⟨self.start_time⟩,
   { shared with periods := closeLastPeriod shared.periods end_time }, c1)

/-- `GamePhase<InProgressState>::end_game`: the source reads `Utc::now()`
twice, once to close the trailing period and once more for the phase
`end_time` field. -/
def GamePhaseInProgress.end_game (self : InProgressState) (shared : Data)
    (c : Clock) : FinishedState × Data × Clock :=
  let (end_time, c1) := c.now
  let shared1 := { shared with periods := closeLastPeriod shared.periods end_time }
  let (t2, c2) := c1.now
  (⟨self.start_time, t2⟩, shared1, c2)

/-- `GamePhase<PausedState>::start_period`: one `now` read; append a new open
period; phase start time preserved. -/
def GamePhasePaused.start_period (self : PausedState) (shared : Data)
    (c : Clock) : InProgressState × Data × Clock :=
  let (t, c1) := c.now
  (⟨self.start_time⟩, { shared with periods := shared.periods ++ [Period.new t] }, c1)

/-- `GamePhase<PausedState>::end_game`: same two `now` reads as the
in-progress variant. -/
def GamePhasePaused.end_game (self : PausedState) (shared : Data)
    (c : Clock) : FinishedState × Data × Clock :=
  let (end_time, c1) := c.now
  let shared1 := { shared with periods := closeLastPeriod shared.periods end_time }
  let (t2, c2) := c1.now
  (⟨self.start_time, t2⟩, shared1, c2)

/-! ## Event dispatch (`src/game/event.rs`) -/

/-- `Event`. -/
inductive Event where
  | StartGame
  | EndGame
  | StartPeriod
  | EndPeriod
deriving DecidableEq

/-- `EventError`. -/
inductive EventError where
  | NoOp
  | Invalid
deriving DecidableEq

/-- The four `EventHandler::on_event` impls, dispatching on the current
phase exactly as in `src/game/event.rs`. -/
def State.on_event (s : State) (event : Event) (shared : Data) (c : Clock) :
    Except EventError (State × Data × Clock) :=
  match s with
  | State.NotStarted =>
    match event with
    | Event.StartGame =>
      let (next, updated, c1) := GamePhaseNotStarted.start_game shared c
      Except.ok (State.InProgress next, updated, c1)
    | _ => Except.error EventError.Invalid
  | State.InProgress self =>
    match event with
    | Event.EndPeriod =>
      let (next, updated, c1) := GamePhaseInProgress.end_period self shared c
      Except.ok (State.Paused next, updated, c1)
    | Event.EndGame =>
      let (next, updated, c1) := GamePhaseInProgress.end_game self shared c
      Except.ok (State.Finished next, updated, c1)
    | _ => Except.error EventError.Invalid
  | State.Paused self =>
    match event with
    | Event.StartPeriod =>
      let (next, updated, c1) := GamePhasePaused.start_period self shared c
      Except.ok (State.InProgress next, updated, c1)
    | Event.EndGame =>
      let (next, updated, c1) := GamePhasePaused.end_game self shared c
      Except.ok (State.Finished next, updated, c1)
    | _ => Except.error EventError.Invalid
  | State.Finished _ => Except.error EventError.Invalid

/-! ## Game aggregate (`src/game/core.rs`) -/

/-- `Game`. -/
structure Game where
  id : Nat
  shared : Data
  state : State
deriving DecidableEq

/-- `Game::new`. -/
def Game.new (id : Nat) (players : List Player) : Game :=
  ⟨id, ⟨[], players, none⟩, State.NotStarted⟩

/-- `Game::on_event`: dispatch on the phase, rebuild the game with the same
id, the new phase and the new shared data. -/
def Game.on_event (g : Game) (event : Event) (c : Clock) :
    Except EventError (Game × Clock) :=
  match g.state.on_event event g.shared c with
  | Except.error e => Except.error e
  | Except.ok (s, d, c1) => Except.ok (⟨g.id, d, s⟩, c1)

/-- Apply a list of events in order, failing at the first rejection. -/
def Game.runEvents (g : Game) (events : List Event) (c : Clock) :
    Except EventError (Game × Clock) :=
  match events with
  | [] => Except.ok (g, c)
  | e :: rest =>
    match g.on_event e c with
    | Except.error err => Except.error err
    | Except.ok (g1, c1) => g1.runEvents rest c1

/-- Closing the most recent period of a non-empty list finishes its last
element and keeps the rest. -/
theorem closeLastPeriod_concat (qs : List Period) (q : Period) (t : Nat) :
    closeLastPeriod (qs ++ [q]) t = qs ++ [q.finish t] := by
  simp [closeLastPeriod, List.getLast?_concat, List.dropLast_concat]

/-- Closing the most recent period of an empty list is a no-op. -/
theorem closeLastPeriod_nil (t : Nat) : closeLastPeriod [] t = [] := rfl

/-! ## The dispatch table's reject cells (spec section 4.2) -/

/-- The "reject" cells of the dispatch table in the spec, section 4.2. -/
def rejects : GameState → Event → Bool
  | GameState.NotStarted, Event.EndGame => true
  | GameState.NotStarted, Event.StartPeriod => true
  | GameState.NotStarted, Event.EndPeriod => true
  | GameState.InProgress, Event.StartGame => true
  | GameState.InProgress, Event.StartPeriod => true
  | GameState.Paused, Event.StartGame => true
  | GameState.Paused, Event.EndPeriod => true
  | GameState.Finished, _ => true
  | _, _ => false

/-- C1: for every phase and event whose dispatch-table cell is "reject",
`Game::on_event` returns the invalid-transition error and produces no game at
all: the only observable output is `Except.error EventError.Invalid`, so no
part of any transition's data effect is applied and the caller's input game is
untouched. -/
theorem C1_reject_cells_atomic (g : Game) (e : Event) (c : Clock)
    (h : rejects g.state.kind e = true) :
    g.on_event e c = Except.error EventError.Invalid := by
  cases hs : g.state <;> cases e <;>
    simp_all [Game.on_event, State.on_event, State.kind, rejects]

/-- C1 witness: a `NotStarted` game rejects `EndGame`. -/
theorem C1_reject_cells_atomic_witness :
    rejects (Game.new 1 []).state.kind Event.EndGame = true ∧
    (Game.new 1 []).on_event Event.EndGame ⟨fun j => j, 0⟩ =
      Except.error EventError.Invalid :=
  ⟨by decide, C1_reject_cells_atomic (Game.new 1 []) Event.EndGame ⟨fun j => j, 0⟩ (by decide)⟩

/-! ## Player sub_on idempotence (C6) -/

/-- C6: `sub_on` is idempotent: a second `sub_on` right after a first yields
exactly the same player (and clock) as the first alone; from a benched player
one call increments `play_count` by exactly one and sets `play_start_time` to
the clock reading; on a player already playing it changes nothing and is not
an error. -/
theorem C6_sub_on_idempotent (p : Player) (c : Clock) :
    ((p.sub_on c).1.sub_on (p.sub_on c).2 = p.sub_on c) ∧
    (p.is_playing = false →
      (p.sub_on c).1.play_count = p.play_count + 1 ∧
      (p.sub_on c).1.play_start_time = some (c.f c.i)) ∧
    (p.is_playing = true → p.sub_on c = (p, c)) := by
  refine ⟨?_, ?_, ?_⟩
  · by_cases hp : p.is_playing
    · simp [Player.sub_on, hp]
    · have h1 : p.sub_on c =
          ({ p with
              play_count := p.play_count + 1
              play_start_time := some (c.f c.i) }, ⟨c.f, c.i + 1⟩) := by
        simp [Player.sub_on, hp, Clock.now]
      rw [h1]
      simp [Player.sub_on, Player.is_playing]
  · intro hp
    simp [Player.sub_on, hp, Clock.now]
  · intro hp
    simp [Player.sub_on, hp]

/-- C6 witness at a fresh player. -/
theorem C6_sub_on_idempotent_witness :
    ((Player.new 1 7 "A").is_playing = false →
      ((Player.new 1 7 "A").sub_on ⟨fun j => j, 0⟩).1.play_count =
        (Player.new 1 7 "A").play_count + 1 ∧
      ((Player.new 1 7 "A").sub_on ⟨fun j => j, 0⟩).1.play_start_time = some 0) ∧
    (Player.new 1 7 "A").is_playing = false :=
  ⟨(C6_sub_on_idempotent (Player.new 1 7 "A") ⟨fun j => j, 0⟩).2.1, by decide⟩

/-! ## Defensive period close (C8) -/

/-- C8: the close-most-recent-open-period step is total and defensive: on a
non-empty list it sets the last period's `end_time` to the close timestamp,
on an empty list it is a no-op; and with an empty periods list the
`end_period` and `end_game` transitions still complete, leaving the periods
list empty and producing the expected phase. -/
theorem C8_close_last_defensive (qs : List Period) (q : Period) (t : Nat)
    (shared : Data) (s : InProgressState) (s2 : PausedState) (c : Clock)
    (hempty : shared.periods = []) :
    closeLastPeriod (qs ++ [q]) t = qs ++ [q.finish t] ∧
    closeLastPeriod [] t = [] ∧
    (GamePhaseInProgress.end_period s shared c =
      (⟨s.start_time⟩, shared, ⟨c.f, c.i + 1⟩)) ∧
    (GamePhaseInProgress.end_game s shared c =
      (⟨s.start_time, c.f (c.i + 1)⟩, shared, ⟨c.f, c.i + 2⟩)) ∧
    (GamePhasePaused.end_game s2 shared c =
      (⟨s2.start_time, c.f (c.i + 1)⟩, shared, ⟨c.f, c.i + 2⟩)) := by
  obtain ⟨ps, pls, m⟩ := shared
  simp only at hempty
  subst hempty
  refine ⟨?_, rfl, ?_, ?_, ?_⟩
  · simp [closeLastPeriod, List.getLast?_concat, List.dropLast_concat]
  · simp [GamePhaseInProgress.end_period, Clock.now, closeLastPeriod]
  · simp [GamePhaseInProgress.end_game, Clock.now, closeLastPeriod]
  · simp [GamePhasePaused.end_game, Clock.now, closeLastPeriod]

/-- C8 witness: one-element period list, and a data value with no periods. -/
theorem C8_close_last_defensive_witness :
    (⟨[], [], none⟩ : Data).periods = [] ∧
    closeLastPeriod ([] ++ [Period.new 3]) 5 = [] ++ [(Period.new 3).finish 5] ∧
    GamePhaseInProgress.end_period ⟨0⟩ ⟨[], [], none⟩ ⟨fun j => j, 0⟩ =
      (⟨0⟩, ⟨[], [], none⟩, ⟨fun j => j, 1⟩) :=
  ⟨rfl,
   (C8_close_last_defensive [] (Period.new 3) 5 ⟨[], [], none⟩ ⟨0⟩ ⟨0⟩
      ⟨fun j => j, 0⟩ rfl).1,
   (C8_close_last_defensive [] (Period.new 3) 5 ⟨[], [], none⟩ ⟨0⟩ ⟨0⟩
      ⟨fun j => j, 0⟩ rfl).2.2.1⟩

/-! ## The double now read in end_game (C5) -/

/-- C5 failing input: `end_game` on an `InProgress` game with one open period,
with a clock whose successive reads are 1 and 2.  The source reads
`Utc::now()` twice in `end_game`: the trailing period is closed at the first
read (1) while `FinishedState.end_time` records the second read (2), so the
two timestamps of the single transition differ. -/
theorem C5_end_game_reads_now_twice :
    (Game.mk 1 ⟨[⟨0, none⟩], [], none⟩ (State.InProgress ⟨0⟩)).on_event
        Event.EndGame ⟨fun j => j, 1⟩ =
      Except.ok (⟨1, ⟨[⟨0, some 1⟩], [], none⟩, State.Finished ⟨0, 2⟩⟩,
        ⟨fun j => j, 3⟩) ∧
    (1 : Nat) ≠ 2 :=
  ⟨rfl, by decide⟩

/-! ## The round trip (C2) -/

/-- C2: from a new game the sequence StartGame, EndPeriod, StartPeriod,
EndGame succeeds at every step, passing through InProgress, Paused,
InProgress, Finished with exactly the table's data effects (each prefix's
result is given literally, timestamps being the successive clock reads); and
at every intermediate state each event outside that phase's legal set fails
at that first illegal step. -/
theorem C2_round_trip (id : Nat) (players : List Player) (c : Clock) :
    ((Game.new id players).runEvents
        [Event.StartGame, Event.EndPeriod, Event.StartPeriod, Event.EndGame] c =
      Except.ok (⟨id, ⟨[⟨c.f c.i, some (c.f (c.i + 1))⟩,
            ⟨c.f (c.i + 2), some (c.f (c.i + 3))⟩], players, none⟩,
        State.Finished ⟨c.f c.i, c.f (c.i + 4)⟩⟩, ⟨c.f, c.i + 5⟩)) ∧
    ((Game.new id players).runEvents [Event.StartGame] c =
      Except.ok (⟨id, ⟨[⟨c.f c.i, none⟩], players, none⟩,
        State.InProgress ⟨c.f c.i⟩⟩, ⟨c.f, c.i + 1⟩)) ∧
    ((Game.new id players).runEvents [Event.StartGame, Event.EndPeriod] c =
      Except.ok (⟨id, ⟨[⟨c.f c.i, some (c.f (c.i + 1))⟩], players, none⟩,
        State.Paused ⟨c.f c.i⟩⟩, ⟨c.f, c.i + 2⟩)) ∧
    ((Game.new id players).runEvents
        [Event.StartGame, Event.EndPeriod, Event.StartPeriod] c =
      Except.ok (⟨id, ⟨[⟨c.f c.i, some (c.f (c.i + 1))⟩,
            ⟨c.f (c.i + 2), none⟩], players, none⟩,
        State.InProgress ⟨c.f c.i⟩⟩, ⟨c.f, c.i + 3⟩)) ∧
    (∀ e, e ≠ Event.StartGame →
      (Game.new id players).runEvents [e] c = Except.error EventError.Invalid) ∧
    (∀ e, e ≠ Event.EndPeriod → e ≠ Event.EndGame →
      (Game.new id players).runEvents [Event.StartGame, e] c =
        Except.error EventError.Invalid) ∧
    (∀ e, e ≠ Event.StartPeriod → e ≠ Event.EndGame →
      (Game.new id players).runEvents [Event.StartGame, Event.EndPeriod, e] c =
        Except.error EventError.Invalid) ∧
    (∀ e, e ≠ Event.EndPeriod → e ≠ Event.EndGame →
      (Game.new id players).runEvents
          [Event.StartGame, Event.EndPeriod, Event.StartPeriod, e] c =
        Except.error EventError.Invalid) ∧
    (∀ e, (Game.new id players).runEvents
          [Event.StartGame, Event.EndPeriod, Event.StartPeriod, Event.EndGame, e] c =
        Except.error EventError.Invalid) := by
  refine ⟨rfl, rfl, rfl, rfl, ?_, ?_, ?_, ?_, ?_⟩
  · intro e h
    cases e
    · exact absurd rfl h
    · rfl
    · rfl
    · rfl
  · intro e h1 h2
    cases e
    · rfl
    · exact absurd rfl h2
    · rfl
    · exact absurd rfl h1
  · intro e h1 h2
    cases e
    · rfl
    · exact absurd rfl h2
    · exact absurd rfl h1
    · rfl
  · intro e h1 h2
    cases e
    · rfl
    · exact absurd rfl h2
    · rfl
    · exact absurd rfl h1
  · intro e
    cases e <;> rfl

/-- C2 witness at a concrete game and clock. -/
theorem C2_round_trip_witness :
    (Game.new 1 []).runEvents
        [Event.StartGame, Event.EndPeriod, Event.StartPeriod, Event.EndGame]
        ⟨fun j => j, 0⟩ =
      Except.ok (⟨1, ⟨[⟨0, some 1⟩, ⟨2, some 3⟩], [], none⟩,
        State.Finished ⟨0, 4⟩⟩, ⟨fun j => j, 5⟩) ∧
    (Game.new 1 []).runEvents [Event.EndGame] ⟨fun j => j, 0⟩ =
      Except.error EventError.Invalid :=
  ⟨(C2_round_trip 1 [] ⟨fun j => j, 0⟩).1,
   (C2_round_trip 1 [] ⟨fun j => j, 0⟩).2.2.2.2.1 Event.EndGame (by decide)⟩

/-! ## Frame condition of on_event (C10) -/

/-- C10: whenever `on_event` succeeds, the result keeps the input's id,
players and mvp; only the phase and the periods list change, and the periods
list changes only by appending one new open period or by setting the
`end_time` of its last element (when the list was empty, the closing
transitions leave it empty). -/
theorem C10_on_event_frame (g : Game) (e : Event) (c : Clock) (g1 : Game)
    (c1 : Clock) (h : g.on_event e c = Except.ok (g1, c1)) :
    g1.id = g.id ∧ g1.shared.players = g.shared.players ∧
    g1.shared.mvp = g.shared.mvp ∧
    ((∃ t, g1.shared.periods = g.shared.periods ++ [Period.new t]) ∨
     (g.shared.periods = [] ∧ g1.shared.periods = []) ∨
     (∃ t qs q, g.shared.periods = qs ++ [q] ∧
        g1.shared.periods = qs ++ [q.finish t])) := by
  obtain ⟨gid, ⟨ps, pls, m⟩, st⟩ := g
  cases st <;> cases e <;>
    simp only [Game.on_event, State.on_event, GamePhaseNotStarted.start_game,
      GamePhaseInProgress.end_period, GamePhaseInProgress.end_game,
      GamePhasePaused.start_period, GamePhasePaused.end_game, Clock.now,
      reduceCtorEq, Except.ok.injEq, Prod.mk.injEq] at h
  case NotStarted.StartGame =>
    obtain ⟨⟨rfl, rfl⟩, rfl⟩ := h
    exact ⟨rfl, rfl, rfl, Or.inl ⟨c.f c.i, rfl⟩⟩
  case InProgress.EndPeriod self =>
    obtain ⟨⟨rfl, rfl⟩, rfl⟩ := h
    refine ⟨rfl, rfl, rfl, ?_⟩
    rcases ps.eq_nil_or_concat with rfl | ⟨qs, q, rfl⟩
    · exact Or.inr (Or.inl ⟨rfl, closeLastPeriod_nil (c.f c.i)⟩)
    · refine Or.inr (Or.inr ⟨c.f c.i, qs, q, ?_, ?_⟩)
      · simp [List.concat_eq_append]
      · simp [List.concat_eq_append, closeLastPeriod_concat]
  case InProgress.EndGame self =>
    obtain ⟨⟨rfl, rfl⟩, rfl⟩ := h
    refine ⟨rfl, rfl, rfl, ?_⟩
    rcases ps.eq_nil_or_concat with rfl | ⟨qs, q, rfl⟩
    · exact Or.inr (Or.inl ⟨rfl, closeLastPeriod_nil (c.f c.i)⟩)
    · refine Or.inr (Or.inr ⟨c.f c.i, qs, q, ?_, ?_⟩)
      · simp [List.concat_eq_append]
      · simp [List.concat_eq_append, closeLastPeriod_concat]
  case Paused.StartPeriod self =>
    obtain ⟨⟨rfl, rfl⟩, rfl⟩ := h
    exact ⟨rfl, rfl, rfl, Or.inl ⟨c.f c.i, rfl⟩⟩
  case Paused.EndGame self =>
    obtain ⟨⟨rfl, rfl⟩, rfl⟩ := h
    refine ⟨rfl, rfl, rfl, ?_⟩
    rcases ps.eq_nil_or_concat with rfl | ⟨qs, q, rfl⟩
    · exact Or.inr (Or.inl ⟨rfl, closeLastPeriod_nil (c.f c.i)⟩)
    · refine Or.inr (Or.inr ⟨c.f c.i, qs, q, ?_, ?_⟩)
      · simp [List.concat_eq_append]
      · simp [List.concat_eq_append, closeLastPeriod_concat]

/-- C10 witness: a successful StartGame keeps id, players and mvp and appends
one open period. -/
theorem C10_on_event_frame_witness :
    (Game.new 1 []).on_event Event.StartGame ⟨fun j => j, 0⟩ =
      Except.ok (⟨1, ⟨[⟨0, none⟩], [], none⟩, State.InProgress ⟨0⟩⟩,
        ⟨fun j => j, 1⟩) ∧
    ((⟨1, ⟨[⟨0, none⟩], [], none⟩, State.InProgress ⟨0⟩⟩ : Game).id =
        (Game.new 1 []).id ∧
      (⟨1, ⟨[⟨0, none⟩], [], none⟩, State.InProgress ⟨0⟩⟩ : Game).shared.players =
        (Game.new 1 []).shared.players ∧
      (⟨1, ⟨[⟨0, none⟩], [], none⟩, State.InProgress ⟨0⟩⟩ : Game).shared.mvp =
        (Game.new 1 []).shared.mvp ∧
      ((∃ t, (⟨1, ⟨[⟨0, none⟩], [], none⟩, State.InProgress ⟨0⟩⟩ : Game).shared.periods =
          (Game.new 1 []).shared.periods ++ [Period.new t]) ∨
       ((Game.new 1 []).shared.periods = [] ∧
        (⟨1, ⟨[⟨0, none⟩], [], none⟩, State.InProgress ⟨0⟩⟩ : Game).shared.periods = []) ∨
       (∃ t qs q, (Game.new 1 []).shared.periods = qs ++ [q] ∧
          (⟨1, ⟨[⟨0, none⟩], [], none⟩, State.InProgress ⟨0⟩⟩ : Game).shared.periods =
            qs ++ [q.finish t]))) :=
  ⟨rfl, C10_on_event_frame (Game.new 1 []) Event.StartGame ⟨fun j => j, 0⟩ _ _ rfl⟩

/-! ## Reachability and the period invariant (C3) -/

/-- Every period in the list is closed. -/
def allClosed (ps : List Period) : Prop :=
  ∀ p ∈ ps, p.end_time ≠ none

/-- Games reachable from `Game::new` by successful `on_event` calls. -/
inductive Reachable : Game → Prop where
  | base (id : Nat) (players : List Player) : Reachable (Game.new id players)
  | step (g : Game) (e : Event) (c : Clock) (g1 : Game) (c1 : Clock) :
      Reachable g → g.on_event e c = Except.ok (g1, c1) → Reachable g1

/-- The period-list invariant maintained by the phase machine: no periods
before the game starts; exactly the last period open while in progress; all
periods closed (and at least one present) when paused or finished. -/
def Game.periodsInv (g : Game) : Prop :=
  match g.state with
  | State.NotStarted => g.shared.periods = []
  | State.InProgress _ =>
      ∃ qs q, g.shared.periods = qs ++ [q] ∧ q.end_time = none ∧ allClosed qs
  | State.Paused _ => g.shared.periods ≠ [] ∧ allClosed g.shared.periods
  | State.Finished _ => g.shared.periods ≠ [] ∧ allClosed g.shared.periods

theorem allClosed_nil : allClosed [] := by
  intro p hp
  simp at hp

theorem allClosed_append (ps qs : List Period) (h1 : allClosed ps)
    (h2 : allClosed qs) : allClosed (ps ++ qs) := by
  intro p hp
  rcases List.mem_append.mp hp with h | h
  · exact h1 p h
  · exact h2 p h

theorem allClosed_finish_singleton (q : Period) (t : Nat) :
    allClosed [q.finish t] := by
  intro p hp
  simp only [List.mem_singleton] at hp
  subst hp
  simp [Period.finish]

theorem allClosed_of_append_left (ps qs : List Period)
    (h : allClosed (ps ++ qs)) : allClosed ps := by
  intro p hp
  exact h p (List.mem_append.mpr (Or.inl hp))

/-- Each successful event preserves the period invariant. -/
theorem periodsInv_on_event (g : Game) (e : Event) (c : Clock) (g1 : Game)
    (c1 : Clock) (hinv : g.periodsInv)
    (h : g.on_event e c = Except.ok (g1, c1)) : g1.periodsInv := by
  obtain ⟨gid, ⟨ps, pls, m⟩, st⟩ := g
  cases st <;> cases e <;>
    simp only [Game.on_event, State.on_event, GamePhaseNotStarted.start_game,
      GamePhaseInProgress.end_period, GamePhaseInProgress.end_game,
      GamePhasePaused.start_period, GamePhasePaused.end_game, Clock.now,
      reduceCtorEq, Except.ok.injEq, Prod.mk.injEq] at h
  case NotStarted.StartGame =>
    obtain ⟨⟨rfl, rfl⟩, rfl⟩ := h
    simp only [Game.periodsInv] at hinv ⊢
    subst hinv
    exact ⟨[], Period.new (c.f c.i), rfl, rfl, allClosed_nil⟩
  case InProgress.EndPeriod self =>
    obtain ⟨⟨rfl, rfl⟩, rfl⟩ := h
    simp only [Game.periodsInv] at hinv ⊢
    obtain ⟨qs, q, rfl, hq, hqs⟩ := hinv
    rw [closeLastPeriod_concat]
    exact ⟨by simp, allClosed_append qs [q.finish (c.f c.i)] hqs
      (allClosed_finish_singleton q (c.f c.i))⟩
  case InProgress.EndGame self =>
    obtain ⟨⟨rfl, rfl⟩, rfl⟩ := h
    simp only [Game.periodsInv] at hinv ⊢
    obtain ⟨qs, q, rfl, hq, hqs⟩ := hinv
    rw [closeLastPeriod_concat]
    exact ⟨by simp, allClosed_append qs [q.finish (c.f c.i)] hqs
      (allClosed_finish_singleton q (c.f c.i))⟩
  case Paused.StartPeriod self =>
    obtain ⟨⟨rfl, rfl⟩, rfl⟩ := h
    simp only [Game.periodsInv] at hinv ⊢
    exact ⟨ps, Period.new (c.f c.i), rfl, rfl, hinv.2⟩
  case Paused.EndGame self =>
    obtain ⟨⟨rfl, rfl⟩, rfl⟩ := h
    simp only [Game.periodsInv] at hinv ⊢
    obtain ⟨hne, hcl⟩ := hinv
    rcases ps.eq_nil_or_concat with rfl | ⟨qs, q, rfl⟩
    · exact absurd rfl hne
    · rw [List.concat_eq_append] at hcl ⊢
      rw [closeLastPeriod_concat]
      exact ⟨by simp, allClosed_append qs [q.finish (c.f c.i)]
        (allClosed_of_append_left qs [q] hcl)
        (allClosed_finish_singleton q (c.f c.i))⟩

/-- Every reachable game satisfies the period invariant. -/
theorem periodsInv_reachable (g : Game) (h : Reachable g) : g.periodsInv := by
  induction h with
  | base id players => simp [Game.periodsInv, Game.new]
  | step g e c g1 c1 hr hok ih => exact periodsInv_on_event g e c g1 c1 ih hok

/-- C3 counterexample: after StartGame then EndPeriod the game is Paused with
its only period already closed at time 1; from there EndGame still succeeds,
so immediately before a successful end_game the most recent period's
end_time can already be set (and end_game then overwrites it with 2),
refuting the claim's "immediately before it is unset". -/
theorem C3_before_unset_counterexample :
    (Game.new 1 []).runEvents [Event.StartGame, Event.EndPeriod]
        ⟨fun j => j, 0⟩ =
      Except.ok (⟨1, ⟨[⟨0, some 1⟩], [], none⟩, State.Paused ⟨0⟩⟩,
        ⟨fun j => j, 2⟩) ∧
    (⟨1, ⟨[⟨0, some 1⟩], [], none⟩, State.Paused ⟨0⟩⟩ : Game).on_event
        Event.EndGame ⟨fun j => j, 2⟩ =
      Except.ok (⟨1, ⟨[⟨0, some 2⟩], [], none⟩, State.Finished ⟨0, 3⟩⟩,
        ⟨fun j => j, 4⟩) ∧
    (⟨1, ⟨[⟨0, some 1⟩], [], none⟩, State.Paused ⟨0⟩⟩ : Game).shared.periods.getLast? = some ⟨0, some 1⟩ ∧
    (some 1 : Option Nat) ≠ none :=
  ⟨rfl, rfl, rfl, by decide⟩

/-- C3 as amended: for every reachable game, at most one period is open, and
an open period is the most recent one with the phase InProgress; immediately
after a successful end_game or end_period the most recent period has
end_time set; immediately before, it is unset when the game is InProgress,
while from Paused (end_game only) it is already set. -/
theorem C3_amended_period_invariant (g : Game) (h : Reachable g) :
    ((g.shared.periods.filter (fun p => p.end_time.isNone)).length ≤ 1) ∧
    (∀ p ∈ g.shared.periods, p.end_time = none →
      g.shared.periods.getLast? = some p ∧
      g.state.kind = GameState.InProgress) ∧
    (∀ e c g1 c1, (e = Event.EndGame ∨ e = Event.EndPeriod) →
      g.on_event e c = Except.ok (g1, c1) →
      ((∃ q, g1.shared.periods.getLast? = some q ∧ q.end_time ≠ none) ∧
       (g.state.kind = GameState.InProgress →
         ∃ q, g.shared.periods.getLast? = some q ∧ q.end_time = none) ∧
       (g.state.kind = GameState.Paused →
         ∃ q, g.shared.periods.getLast? = some q ∧ q.end_time ≠ none))) := by
  have hinv := periodsInv_reachable g h
  obtain ⟨gid, ⟨ps, pls, m⟩, st⟩ := g
  refine ⟨?_, ?_, ?_⟩
  · cases st <;> simp only [Game.periodsInv] at hinv
    · subst hinv
      simp
    case InProgress self =>
      obtain ⟨qs, q, hps, hq, hqs⟩ := hinv
      subst hps
      have hqsf : qs.filter (fun p => p.end_time.isNone) = [] := by
        rw [List.filter_eq_nil_iff]
        intro p hp
        simpa using hqs p hp
      simp [List.filter_append, hqsf, hq]
    case Paused self =>
      have hf : ps.filter (fun p => p.end_time.isNone) = [] := by
        rw [List.filter_eq_nil_iff]
        intro p hp
        simpa using hinv.2 p hp
      simp [hf]
    case Finished self =>
      have hf : ps.filter (fun p => p.end_time.isNone) = [] := by
        rw [List.filter_eq_nil_iff]
        intro p hp
        simpa using hinv.2 p hp
      simp [hf]
  · intro p hp hopen
    cases st <;> simp only [Game.periodsInv] at hinv
    · subst hinv
      simp at hp
    case InProgress self =>
      obtain ⟨qs, q, hps, hq, hqs⟩ := hinv
      simp only at hps hp ⊢
      subst hps
      rcases List.mem_append.mp hp with hm | hm
      · exact absurd hopen (hqs p hm)
      · simp only [List.mem_singleton] at hm
        subst hm
        exact ⟨List.getLast?_concat _, rfl⟩
    case Paused self =>
      exact absurd hopen (hinv.2 p hp)
    case Finished self =>
      exact absurd hopen (hinv.2 p hp)
  · intro e c g1 c1 hev hok
    cases st <;> simp only [Game.periodsInv] at hinv
    · rcases hev with rfl | rfl <;>
        simp [Game.on_event, State.on_event] at hok
    case InProgress self =>
      obtain ⟨qs, q, hps, hq, hqs⟩ := hinv
      subst hps
      refine ⟨?_, ?_, ?_⟩
      · rcases hev with rfl | rfl <;>
          simp only [Game.on_event, State.on_event,
            GamePhaseInProgress.end_period, GamePhaseInProgress.end_game,
            Clock.now, Except.ok.injEq, Prod.mk.injEq] at hok
        · obtain ⟨⟨rfl, rfl⟩, rfl⟩ := hok
          rw [closeLastPeriod_concat]
          exact ⟨q.finish (c.f c.i), List.getLast?_concat _, by simp [Period.finish]⟩
        · obtain ⟨⟨rfl, rfl⟩, rfl⟩ := hok
          rw [closeLastPeriod_concat]
          exact ⟨q.finish (c.f c.i), List.getLast?_concat _, by simp [Period.finish]⟩
      · intro _
        exact ⟨q, List.getLast?_concat _, hq⟩
      · intro hk
        simp [State.kind] at hk
    case Paused self =>
      obtain ⟨hne, hcl⟩ := hinv
      rcases ps.eq_nil_or_concat with rfl | ⟨qs, q, rfl⟩
      · exact absurd rfl hne
      refine ⟨?_, ?_, ?_⟩
      · rcases hev with rfl | rfl <;>
          simp only [Game.on_event, State.on_event, GamePhasePaused.end_game,
            Clock.now, reduceCtorEq, Except.ok.injEq, Prod.mk.injEq] at hok
        obtain ⟨⟨rfl, rfl⟩, rfl⟩ := hok
        rw [List.concat_eq_append, closeLastPeriod_concat]
        exact ⟨q.finish (c.f c.i), List.getLast?_concat _, by simp [Period.finish]⟩
      · intro hk
        simp [State.kind] at hk
      · intro _
        refine ⟨q, ?_, ?_⟩
        · rw [List.concat_eq_append]
          exact List.getLast?_concat _
        · exact hcl q (by simp)
    case Finished self =>
      rcases hev with rfl | rfl <;>
        simp [Game.on_event, State.on_event] at hok

/-- C3 amended witness at the freshly created game. -/
theorem C3_amended_period_invariant_witness :
    (((Game.new 1 []).shared.periods.filter
        (fun p => p.end_time.isNone)).length ≤ 1) ∧
    (∀ p ∈ (Game.new 1 []).shared.periods, p.end_time = none →
      (Game.new 1 []).shared.periods.getLast? = some p ∧
      (Game.new 1 []).state.kind = GameState.InProgress) :=
  ⟨(C3_amended_period_invariant (Game.new 1 []) (Reachable.base 1 [])).1,
   (C3_amended_period_invariant (Game.new 1 []) (Reachable.base 1 [])).2.1⟩

/-! ## Interleaved sub_on / sub_off sequences (C7) -/

/-- A substitution call. -/
inductive SubOp where
  | subOn
  | subOff
deriving DecidableEq

/-- Apply one substitution call to a player. -/
def applyOp (p : Player) (op : SubOp) (c : Clock) : Player × Clock :=
  match op with
  | SubOp.subOn => p.sub_on c
  | SubOp.subOff => p.sub_off c

/-- Apply a sequence of substitution calls in order. -/
def runOps (p : Player) (ops : List SubOp) (c : Clock) : Player × Clock :=
  match ops with
  | [] => (p, c)
  | op :: rest =>
    let (p1, c1) := applyOp p op c
    runOps p1 rest c1

/-- The completed (sub_on, sub_off) intervals of a call sequence: a projection
of the player semantics that tracks only the on-court start timestamp and
records one (start, stop) pair at every effective sub_off. -/
def completedIntervals (playing : Option Nat) (ops : List SubOp) (c : Clock) :
    List (Nat × Nat) :=
  match ops with
  | [] => []
  | SubOp.subOn :: rest =>
    match playing with
    | some st => completedIntervals (some st) rest c
    | none =>
      let (t, c1) := c.now
      completedIntervals (some t) rest c1
  | SubOp.subOff :: rest =>
    match playing with
    | some st =>
      let (t, c1) := c.now
      (st, t) :: completedIntervals none rest c1
    | none => completedIntervals none rest c

/-- Sum of interval lengths, as a signed duration. -/
def intervalSum (l : List (Nat × Nat)) : Int :=
  (l.map (fun iv => (iv.2 : Int) - (iv.1 : Int))).sum

/-- A player's recorded start time, if any, does not lie in the clock's
future. -/
def StartOk (p : Player) (c : Clock) : Prop :=
  ∀ t, p.play_start_time = some t → t ≤ c.f c.i

theorem is_playing_false_of_none (p : Player) (hst : p.play_start_time = none) :
    p.is_playing = false := by
  simp [Player.is_playing, hst]

theorem is_playing_true_of_some (p : Player) (st : Nat)
    (hst : p.play_start_time = some st) : p.is_playing = true := by
  simp [Player.is_playing, hst]

theorem sub_on_playing (p : Player) (c : Clock) (hp : p.is_playing = true) :
    p.sub_on c = (p, c) := by
  simp [Player.sub_on, hp]

theorem sub_on_benched (p : Player) (c : Clock) (hp : p.is_playing = false) :
    p.sub_on c = ({ p with
        play_count := p.play_count + 1
        play_start_time := some (c.f c.i) }, ⟨c.f, c.i + 1⟩) := by
  simp [Player.sub_on, hp, Clock.now]

theorem sub_off_benched (p : Player) (c : Clock) (hp : p.is_playing = false) :
    p.sub_off c = (p, c) := by
  simp [Player.sub_off, hp]

theorem sub_off_playing (p : Player) (c : Clock) (st : Nat)
    (hst : p.play_start_time = some st) :
    p.sub_off c = ({ p with
        play_duration := p.play_duration + ((c.f c.i : Int) - (st : Int))
        play_start_time := none }, ⟨c.f, c.i + 1⟩) := by
  simp [Player.sub_off, is_playing_true_of_some p st hst, hst, Clock.now]

theorem applyOp_clock (p : Player) (op : SubOp) (c : Clock) :
    (applyOp p op c).2.f = c.f ∧ c.i ≤ (applyOp p op c).2.i := by
  cases op <;> simp only [applyOp] <;> cases hst : p.play_start_time
  · rw [sub_on_benched p c (is_playing_false_of_none p hst)]
    exact ⟨rfl, Nat.le_succ c.i⟩
  · rename_i st
    rw [sub_on_playing p c (is_playing_true_of_some p st hst)]
    exact ⟨rfl, le_refl c.i⟩
  · rw [sub_off_benched p c (is_playing_false_of_none p hst)]
    exact ⟨rfl, le_refl c.i⟩
  · rename_i st
    rw [sub_off_playing p c st hst]
    exact ⟨rfl, Nat.le_succ c.i⟩

theorem startOk_applyOp (p : Player) (op : SubOp) (c : Clock)
    (hm : Clock.Mono c.f) (hs : StartOk p c) :
    StartOk (applyOp p op c).1 (applyOp p op c).2 := by
  cases op <;> simp only [applyOp] <;> cases hst : p.play_start_time
  · rw [sub_on_benched p c (is_playing_false_of_none p hst)]
    intro t ht
    simp only [Option.some.injEq] at ht
    subst ht
    exact hm c.i (c.i + 1) (Nat.le_succ c.i)
  · rename_i st
    rw [sub_on_playing p c (is_playing_true_of_some p st hst)]
    exact hs
  · rw [sub_off_benched p c (is_playing_false_of_none p hst)]
    exact hs
  · rename_i st
    rw [sub_off_playing p c st hst]
    intro t ht
    simp at ht

theorem applyOp_mono (p : Player) (op : SubOp) (c : Clock)
    (hs : StartOk p c) :
    p.play_count ≤ (applyOp p op c).1.play_count ∧
    p.play_duration ≤ (applyOp p op c).1.play_duration := by
  cases op <;> simp only [applyOp] <;> cases hst : p.play_start_time
  · rw [sub_on_benched p c (is_playing_false_of_none p hst)]
    exact ⟨Nat.le_succ p.play_count, le_refl _⟩
  · rename_i st
    rw [sub_on_playing p c (is_playing_true_of_some p st hst)]
    exact ⟨le_refl _, le_refl _⟩
  · rw [sub_off_benched p c (is_playing_false_of_none p hst)]
    exact ⟨le_refl _, le_refl _⟩
  · rename_i st
    rw [sub_off_playing p c st hst]
    refine ⟨le_refl _, ?_⟩
    have hle : (st : Int) ≤ (c.f c.i : Int) := by
      exact_mod_cast hs st hst
    simp only [le_add_iff_nonneg_right]
    omega

theorem runOps_clock_f (p : Player) (ops : List SubOp) (c : Clock) :
    (runOps p ops c).2.f = c.f := by
  induction ops generalizing p c with
  | nil => rfl
  | cons op rest ih =>
    simp only [runOps]
    rw [ih]
    exact (applyOp_clock p op c).1

theorem startOk_runOps (p : Player) (ops : List SubOp) (c : Clock)
    (hm : Clock.Mono c.f) (hs : StartOk p c) :
    StartOk (runOps p ops c).1 (runOps p ops c).2 := by
  induction ops generalizing p c with
  | nil => exact hs
  | cons op rest ih =>
    simp only [runOps]
    have hf := (applyOp_clock p op c).1
    exact ih (applyOp p op c).1 (applyOp p op c).2 (hf ▸ hm)
      (startOk_applyOp p op c hm hs)

theorem runOps_mono (p : Player) (ops : List SubOp) (c : Clock)
    (hm : Clock.Mono c.f) (hs : StartOk p c) :
    p.play_count ≤ (runOps p ops c).1.play_count ∧
    p.play_duration ≤ (runOps p ops c).1.play_duration := by
  induction ops generalizing p c with
  | nil => exact ⟨le_refl _, le_refl _⟩
  | cons op rest ih =>
    simp only [runOps]
    have hf := (applyOp_clock p op c).1
    have hstep := applyOp_mono p op c hs
    have hrest := ih (applyOp p op c).1 (applyOp p op c).2 (hf ▸ hm)
      (startOk_applyOp p op c hm hs)
    exact ⟨le_trans hstep.1 hrest.1, le_trans hstep.2 hrest.2⟩

theorem runOps_append (p : Player) (l1 l2 : List SubOp) (c : Clock) :
    runOps p (l1 ++ l2) c =
      runOps (runOps p l1 c).1 l2 (runOps p l1 c).2 := by
  induction l1 generalizing p c with
  | nil => rfl
  | cons op rest ih =>
    simp only [List.cons_append, runOps]
    exact ih (applyOp p op c).1 (applyOp p op c).2

theorem runOps_duration_sum (p : Player) (ops : List SubOp) (c : Clock) :
    (runOps p ops c).1.play_duration =
      p.play_duration +
        intervalSum (completedIntervals p.play_start_time ops c) := by
  induction ops generalizing p c with
  | nil => simp [runOps, completedIntervals, intervalSum]
  | cons op rest ih =>
    cases op
    · cases hst : p.play_start_time with
      | some st =>
        simp only [runOps, applyOp,
          sub_on_playing p c (is_playing_true_of_some p st hst),
          completedIntervals, hst]
        rw [ih p c, hst]
      | none =>
        simp only [runOps, applyOp,
          sub_on_benched p c (is_playing_false_of_none p hst),
          completedIntervals, hst, Clock.now]
        rw [ih]
    · cases hst : p.play_start_time with
      | some st =>
        simp only [runOps, applyOp, sub_off_playing p c st hst,
          completedIntervals, hst, Clock.now]
        rw [ih]
        simp only [intervalSum, List.map_cons, List.sum_cons]
        ring
      | none =>
        simp only [runOps, applyOp,
          sub_off_benched p c (is_playing_false_of_none p hst),
          completedIntervals, hst]
        rw [ih p c, hst]

/-- C7: for any interleaving of sub_on/sub_off calls under a monotone clock
(and a start time, if any, not in the clock's future), `play_count` and
`play_duration` are non-decreasing across every call — every prefix's totals
are bounded by the full run's — and the final `play_duration` equals the
initial one plus the sum of the lengths of all completed (sub_on, sub_off)
intervals.  Each call is total, so the worst case is a no-op, never corrupted
state. -/
theorem C7_sub_sequences (p : Player) (ops : List SubOp) (c : Clock)
    (hm : Clock.Mono c.f) (hs : StartOk p c) :
    (∀ l1 l2, ops = l1 ++ l2 →
      (runOps p l1 c).1.play_count ≤ (runOps p ops c).1.play_count ∧
      (runOps p l1 c).1.play_duration ≤ (runOps p ops c).1.play_duration) ∧
    (runOps p ops c).1.play_duration =
      p.play_duration +
        intervalSum (completedIntervals p.play_start_time ops c) := by
  constructor
  · intro l1 l2 hsplit
    subst hsplit
    rw [runOps_append]
    have hf := runOps_clock_f p l1 c
    exact runOps_mono (runOps p l1 c).1 l2 (runOps p l1 c).2 (hf ▸ hm)
      (startOk_runOps p l1 c hm hs)
  · exact runOps_duration_sum p ops c

/-- C7 witness: a fresh player, the sequence on, off, off, on, an identity
clock. -/
theorem C7_sub_sequences_witness :
    ((runOps (Player.new 1 7 "A") [SubOp.subOn] ⟨fun j => j, 0⟩).1.play_count ≤
      (runOps (Player.new 1 7 "A")
        [SubOp.subOn, SubOp.subOff, SubOp.subOff, SubOp.subOn]
        ⟨fun j => j, 0⟩).1.play_count) ∧
    (runOps (Player.new 1 7 "A")
        [SubOp.subOn, SubOp.subOff, SubOp.subOff, SubOp.subOn]
        ⟨fun j => j, 0⟩).1.play_duration =
      (Player.new 1 7 "A").play_duration +
        intervalSum (completedIntervals (Player.new 1 7 "A").play_start_time
          [SubOp.subOn, SubOp.subOff, SubOp.subOff, SubOp.subOn]
          ⟨fun j => j, 0⟩) :=
  ⟨((C7_sub_sequences (Player.new 1 7 "A")
      [SubOp.subOn, SubOp.subOff, SubOp.subOff, SubOp.subOn] ⟨fun j => j, 0⟩
      (fun j k h => h)
      (by intro t ht; simp [Player.new] at ht)).1
      [SubOp.subOn] [SubOp.subOff, SubOp.subOff, SubOp.subOn] rfl).1,
   (C7_sub_sequences (Player.new 1 7 "A")
      [SubOp.subOn, SubOp.subOff, SubOp.subOff, SubOp.subOn] ⟨fun j => j, 0⟩
      (fun j k h => h)
      (by intro t ht; simp [Player.new] at ht)).2⟩

/-! ## Storage contract and orchestration service (`src/repo/core.rs`,
`src/svc.rs`) -/

/-- `Error` from `src/error.rs`. -/
inductive Error where
  | InvalidInput (msg : String)
  | NotFound
  | Conflict
  | Internal (msg : String)
deriving DecidableEq

/-- The storage collaborator (`Repo` trait of `src/repo/core.rs`), modelled as
id-keyed stores per the contract of spec section 6 (the keying used by the
sqlite backend): lookups match on `id`, updates replace the record with the
matching `id` and fail with NotFound when absent. -/
structure Repo where
  games : List Game
  players : List Player
deriving DecidableEq

/-- Replace every record whose key equals `x`'s key by `x` (the map-insert of
an id-keyed store, on its list of records). -/
def replaceById {α : Type} (key : α → Nat) (x : α) (l : List α) : List α :=
  l.map (fun y => if key y == key x then x else y)

/-- `Repo::get_game`. -/
def Repo.get_game (r : Repo) (game_id : Nat) : Except Error Game :=
  match r.games.find? (fun g => g.id == game_id) with
  | some g => Except.ok g
  | none => Except.error Error.NotFound

/-- `Repo::update_game`. -/
def Repo.update_game (r : Repo) (game : Game) : Except Error Repo :=
  if r.games.any (fun g => g.id == game.id) then
    Except.ok { r with games := replaceById Game.id game r.games }
  else Except.error Error.NotFound

/-- `Repo::get_player`. -/
def Repo.get_player (r : Repo) (player_id : Nat) : Except Error Player :=
  match r.players.find? (fun p => p.id == player_id) with
  | some p => Except.ok p
  | none => Except.error Error.NotFound

/-- `Repo::update_player`. -/
def Repo.update_player (r : Repo) (player : Player) : Except Error Repo :=
  if r.players.any (fun q => q.id == player.id) then
    Except.ok { r with players := replaceById Player.id player r.players }
  else Except.error Error.NotFound

/-- The sub-off-everyone loop of `Service::end_game`: mutate each roster
player in order, threading the clock. -/
def subOffAll (players : List Player) (c : Clock) : List Player × Clock :=
  match players with
  | [] => ([], c)
  | p :: rest =>
    let r1 := p.sub_off c
    let r2 := subOffAll rest r1.2
    (r1.1 :: r2.1, r2.2)

/-- The per-player stat-folding loop of `Service::end_game`: read the stored
player, add the game stats, write back; players absent from storage are
skipped (`if let Ok`). -/
def foldStats (r : Repo) (players : List Player) : Except Error Repo :=
  match players with
  | [] => Except.ok r
  | p :: rest =>
    match r.get_player p.id with
    | Except.ok ep =>
      match r.update_player (ep.add_stats p.play_count p.play_duration) with
      | Except.ok r1 => foldStats r1 rest
      | Except.error e => Except.error e
    | Except.error _ => foldStats r rest

/-- The sub-off-everyone step of `Service::end_game` applied to the game:
replace the roster by its subbed-off copy. -/
def endGameRosterGame (game1 : Game) (c1 : Clock) : Game :=
  { game1 with shared :=
      { game1.shared with players := (subOffAll game1.shared.players c1).1 } }

/-- `Service::end_game`: load, apply EndGame, sub everyone off, persist the
game, then fold each roster player's game stats into their stored record. -/
def Service.end_game (r : Repo) (game_id : Nat) (c : Clock) :
    Except Error (Game × Repo × Clock) :=
  match r.get_game game_id with
  | Except.error e => Except.error e
  | Except.ok game0 =>
    match game0.on_event Event.EndGame c with
    | Except.error EventError.NoOp =>
        Except.error (Error.InvalidInput "game already ended")
    | Except.error EventError.Invalid =>
        Except.error (Error.InvalidInput "no state change")
    | Except.ok (game1, c1) =>
      match r.update_game (endGameRosterGame game1 c1) with
      | Except.error e => Except.error e
      | Except.ok r1 =>
        match foldStats r1 (endGameRosterGame game1 c1).shared.players with
        | Except.error e => Except.error e
        | Except.ok r2 =>
          Except.ok (endGameRosterGame game1 c1, r2,
            (subOffAll game1.shared.players c1).2)

/-- `Service::upsert_mvp`: load, check the player id is in the roster, set
`mvp`, persist. -/
def Service.upsert_mvp (r : Repo) (game_id : Nat) (player_id : Nat) :
    Except Error (Game × Repo) :=
  match r.get_game game_id with
  | Except.error e => Except.error e
  | Except.ok game =>
    match game.shared.players.find? (fun p => p.id == player_id) with
    | none => Except.error Error.NotFound
    | some _ =>
      let game1 := { game with shared := { game.shared with mvp := some player_id } }
      match r.update_game game1 with
      | Except.error e => Except.error e
      | Except.ok r1 => Except.ok (game1, r1)

/-! ## Storage lemmas -/

theorem find_replaceById_same {α : Type} (key : α → Nat) (x : α) (l : List α)
    (h : l.any (fun y => key y == key x) = true) :
    (replaceById key x l).find? (fun y => key y == key x) = some x := by
  induction l with
  | nil => simp at h
  | cons a as ih =>
    by_cases ha : (key a == key x) = true
    · simp [replaceById, List.find?, ha]
    · simp only [List.any_cons, Bool.or_eq_true] at h
      rcases h with h | h
      · exact absurd h ha
      · simpa [replaceById, List.find?, ha] using ih h

theorem find_replaceById_other {α : Type} (key : α → Nat) (x : α) (l : List α)
    (k : Nat) (hne : k ≠ key x) :
    (replaceById key x l).find? (fun y => key y == k) =
      l.find? (fun y => key y == k) := by
  induction l with
  | nil => rfl
  | cons a as ih =>
    by_cases ha : (key a == key x) = true
    · have hax : key a = key x := by simpa using ha
      have h1 : (key x == k) = false := by
        simp [Ne.symm hne]
      have h2 : (key a == k) = false := by
        simp [hax, Ne.symm hne]
      simpa [replaceById, List.find?, ha, h1, h2] using ih
    · by_cases hk : (key a == k) = true
      · simp [replaceById, List.find?, ha, hk]
      · simpa [replaceById, List.find?, ha, hk] using ih

theorem get_game_ok (r : Repo) (game_id : Nat) (g : Game)
    (h : r.get_game game_id = Except.ok g) :
    g.id = game_id ∧ r.games.any (fun y => y.id == game_id) = true := by
  unfold Repo.get_game at h
  cases hf : r.games.find? (fun y => y.id == game_id) with
  | none => rw [hf] at h; exact absurd h (by simp)
  | some g2 =>
    rw [hf] at h
    simp only [Except.ok.injEq] at h
    subst h
    have hp := List.find?_some hf
    refine ⟨by simpa using hp, ?_⟩
    exact List.any_eq_true.mpr ⟨_, List.mem_of_find?_eq_some hf, hp⟩

theorem get_player_ok (r : Repo) (player_id : Nat) (ep : Player)
    (h : r.get_player player_id = Except.ok ep) :
    ep.id = player_id ∧ r.players.any (fun y => y.id == player_id) = true := by
  unfold Repo.get_player at h
  cases hf : r.players.find? (fun y => y.id == player_id) with
  | none => rw [hf] at h; exact absurd h (by simp)
  | some p2 =>
    rw [hf] at h
    simp only [Except.ok.injEq] at h
    subst h
    have hp := List.find?_some hf
    refine ⟨by simpa using hp, ?_⟩
    exact List.any_eq_true.mpr ⟨_, List.mem_of_find?_eq_some hf, hp⟩

theorem update_game_ok (r : Repo) (g : Game) (r1 : Repo)
    (h : r.update_game g = Except.ok r1) :
    r.games.any (fun y => y.id == g.id) = true ∧
    r1 = { r with games := replaceById Game.id g r.games } := by
  unfold Repo.update_game at h
  by_cases ha : r.games.any (fun y => y.id == g.id) = true
  · rw [if_pos ha] at h
    simp only [Except.ok.injEq] at h
    exact ⟨ha, h.symm⟩
  · rw [if_neg ha] at h
    exact absurd h (by simp)

theorem update_player_ok (r : Repo) (pl : Player) (r1 : Repo)
    (h : r.update_player pl = Except.ok r1) :
    r.players.any (fun y => y.id == pl.id) = true ∧
    r1 = { r with players := replaceById Player.id pl r.players } := by
  unfold Repo.update_player at h
  by_cases ha : r.players.any (fun y => y.id == pl.id) = true
  · rw [if_pos ha] at h
    simp only [Except.ok.injEq] at h
    exact ⟨ha, h.symm⟩
  · rw [if_neg ha] at h
    exact absurd h (by simp)

theorem update_player_of_any (r : Repo) (pl : Player)
    (ha : r.players.any (fun y => y.id == pl.id) = true) :
    r.update_player pl =
      Except.ok { r with players := replaceById Player.id pl r.players } := by
  unfold Repo.update_player
  rw [if_pos ha]

theorem get_player_after_update_same (r : Repo) (pl : Player)
    (ha : r.players.any (fun y => y.id == pl.id) = true) :
    ({ r with players := replaceById Player.id pl r.players } : Repo).get_player
        pl.id = Except.ok pl := by
  unfold Repo.get_player
  rw [find_replaceById_same Player.id pl r.players ha]

theorem get_player_after_update_other (r : Repo) (pl : Player) (x : Nat)
    (hne : x ≠ pl.id) :
    ({ r with players := replaceById Player.id pl r.players } : Repo).get_player
        x = r.get_player x := by
  unfold Repo.get_player
  rw [find_replaceById_other Player.id pl r.players x hne]

/-! ## C9: upsert_mvp -/

/-- C9: with a stored game, `upsert_mvp` returns NotFound when the player id
is absent from the roster (producing no new repo, so the stored game and its
mvp are unchanged), and with a roster player id it returns the game with
`mvp` set and persists it: reloading the game id yields the updated game,
and the player store is untouched. -/
theorem C9_upsert_mvp (r : Repo) (game_id : Nat) (player_id : Nat) (g : Game)
    (hget : r.get_game game_id = Except.ok g) :
    ((∀ p ∈ g.shared.players, p.id ≠ player_id) →
      Service.upsert_mvp r game_id player_id = Except.error Error.NotFound) ∧
    ((∃ p ∈ g.shared.players, p.id = player_id) →
      ∃ r1, Service.upsert_mvp r game_id player_id =
          Except.ok
            ({ g with shared := { g.shared with mvp := some player_id } }, r1) ∧
        r1.get_game game_id =
          Except.ok { g with shared := { g.shared with mvp := some player_id } } ∧
        r1.players = r.players) := by
  obtain ⟨hid, hany⟩ := get_game_ok r game_id g hget
  constructor
  · intro habs
    have hf : g.shared.players.find? (fun p => p.id == player_id) = none := by
      rw [List.find?_eq_none]
      intro p hp
      simpa using habs p hp
    simp only [Service.upsert_mvp, hget, hf]
  · intro hpres
    obtain ⟨p, hp, hpid⟩ := hpres
    cases hf : g.shared.players.find? (fun q => q.id == player_id) with
    | none =>
      rw [List.find?_eq_none] at hf
      exact absurd (by simpa using hpid) (hf p hp)
    | some q =>
      have hany1 : r.games.any
          (fun y => y.id ==
            ({ g with shared := { g.shared with mvp := some player_id } } : Game).id) =
          true := by
        simpa [hid] using hany
      refine ⟨{ r with games := replaceById Game.id { g with shared := { g.shared with mvp := some player_id } } r.games }, ?_, ?_, rfl⟩
      · simp only [Service.upsert_mvp, hget, hf]
        rw [Repo.update_game, if_pos hany1]
      · unfold Repo.get_game
        rw [show game_id =
            ({ g with shared := { g.shared with mvp := some player_id } } : Game).id
          from hid.symm]
        rw [find_replaceById_same Game.id _ r.games hany1]

/-- C9 witness: a one-game, one-roster-player store; id 9 is absent, id 5 is
present. -/
theorem C9_upsert_mvp_witness :
    (Service.upsert_mvp
        ⟨[⟨1, ⟨[], [Player.new 5 7 "A"], none⟩, State.NotStarted⟩], []⟩ 1 9 =
      Except.error Error.NotFound) ∧
    (∃ r1, Service.upsert_mvp
        ⟨[⟨1, ⟨[], [Player.new 5 7 "A"], none⟩, State.NotStarted⟩], []⟩ 1 5 =
      Except.ok (⟨1, ⟨[], [Player.new 5 7 "A"], some 5⟩, State.NotStarted⟩, r1) ∧
      r1.get_game 1 =
        Except.ok ⟨1, ⟨[], [Player.new 5 7 "A"], some 5⟩, State.NotStarted⟩ ∧
      r1.players = ([] : List Player)) :=
  ⟨(C9_upsert_mvp ⟨[⟨1, ⟨[], [Player.new 5 7 "A"], none⟩, State.NotStarted⟩], []⟩
      1 9 ⟨1, ⟨[], [Player.new 5 7 "A"], none⟩, State.NotStarted⟩ rfl).1
      (by intro p hp; simp [Player.new] at hp; simp [hp]),
   (C9_upsert_mvp ⟨[⟨1, ⟨[], [Player.new 5 7 "A"], none⟩, State.NotStarted⟩], []⟩
      1 5 ⟨1, ⟨[], [Player.new 5 7 "A"], none⟩, State.NotStarted⟩ rfl).2
      ⟨Player.new 5 7 "A", by simp, rfl⟩⟩

/-! ## C4: end_game effects -/

theorem sub_off_clears (p : Player) (c : Clock) :
    (p.sub_off c).1.play_start_time = none := by
  cases hst : p.play_start_time
  · rw [sub_off_benched p c (is_playing_false_of_none p hst)]
    exact hst
  · rename_i st
    rw [sub_off_playing p c st hst]

theorem subOffAll_clears (players : List Player) (c : Clock) :
    ∀ p ∈ (subOffAll players c).1, p.play_start_time = none := by
  induction players generalizing c with
  | nil =>
    intro p hp
    simp [subOffAll] at hp
  | cons q rest ih =>
    intro p hp
    simp only [subOffAll] at hp
    rcases List.mem_cons.mp hp with rfl | hm
    · exact sub_off_clears q c
    · exact ih (q.sub_off c).2 p hm

theorem on_event_end_game_kind (g : Game) (c : Clock) (g1 : Game) (c1 : Clock)
    (h : g.on_event Event.EndGame c = Except.ok (g1, c1)) :
    g1.state.kind = GameState.Finished ∧ g1.id = g.id := by
  obtain ⟨gid, ⟨ps, pls, m⟩, st⟩ := g
  cases st <;>
    simp only [Game.on_event, State.on_event, GamePhaseInProgress.end_game,
      GamePhasePaused.end_game, Clock.now, reduceCtorEq, Except.ok.injEq,
      Prod.mk.injEq] at h
  case InProgress self =>
    obtain ⟨⟨rfl, rfl⟩, rfl⟩ := h
    exact ⟨rfl, rfl⟩
  case Paused self =>
    obtain ⟨⟨rfl, rfl⟩, rfl⟩ := h
    exact ⟨rfl, rfl⟩

theorem foldStats_games (players : List Player) (r r2 : Repo)
    (h : foldStats r players = Except.ok r2) : r2.games = r.games := by
  induction players generalizing r with
  | nil =>
    simp only [foldStats, Except.ok.injEq] at h
    rw [← h]
  | cons q rest ih =>
    unfold foldStats at h
    cases hg : r.get_player q.id with
    | error e =>
      simp only [hg] at h
      exact ih r h
    | ok eq2 =>
      simp only [hg] at h
      cases hu : r.update_player (eq2.add_stats q.play_count q.play_duration) with
      | error e =>
        simp only [hu] at h
        exact absurd h (by simp)
      | ok r1 =>
        simp only [hu] at h
        have hr1 := (update_player_ok r _ r1 hu).2
        rw [ih r1 h, hr1]

theorem foldStats_preserves_get (players : List Player) (r r2 : Repo) (x : Nat)
    (h : foldStats r players = Except.ok r2)
    (hx : ∀ p ∈ players, p.id ≠ x) :
    r2.get_player x = r.get_player x := by
  induction players generalizing r with
  | nil =>
    simp only [foldStats, Except.ok.injEq] at h
    rw [← h]
  | cons q rest ih =>
    unfold foldStats at h
    cases hg : r.get_player q.id with
    | error e =>
      simp only [hg] at h
      exact ih r h (fun p hp => hx p (List.mem_cons_of_mem q hp))
    | ok eq2 =>
      simp only [hg] at h
      cases hu : r.update_player (eq2.add_stats q.play_count q.play_duration) with
      | error e =>
        simp only [hu] at h
        exact absurd h (by simp)
      | ok r1 =>
        simp only [hu] at h
        have hr1 := (update_player_ok r _ r1 hu).2
        have heq : eq2.id = q.id := (get_player_ok r q.id eq2 hg).1
        have hne : x ≠ (eq2.add_stats q.play_count q.play_duration).id := by
          have : (eq2.add_stats q.play_count q.play_duration).id = q.id := heq
          rw [this]
          exact fun hc => hx q (List.mem_cons_self q rest) (hc ▸ rfl)
        have h1 : r1.get_player x = r.get_player x := by
          rw [hr1]
          exact get_player_after_update_other r _ x hne
        rw [ih r1 h (fun p hp => hx p (List.mem_cons_of_mem q hp)), h1]

theorem foldStats_adds (players : List Player) (r r2 : Repo)
    (h : foldStats r players = Except.ok r2)
    (hnodup : (players.map Player.id).Nodup) :
    ∀ p ∈ players, ∀ ep, r.get_player p.id = Except.ok ep →
      r2.get_player p.id =
        Except.ok (ep.add_stats p.play_count p.play_duration) := by
  induction players generalizing r with
  | nil =>
    intro p hp
    simp at hp
  | cons q rest ih =>
    intro p hp ep hep
    simp only [List.map_cons, List.nodup_cons] at hnodup
    obtain ⟨hqrest, hrestnd⟩ := hnodup
    unfold foldStats at h
    rcases List.mem_cons.mp hp with rfl | hmem
    · simp only [hep] at h
      cases hu : r.update_player (ep.add_stats p.play_count p.play_duration) with
      | error e =>
        simp only [hu] at h
        exact absurd h (by simp)
      | ok r1 =>
        simp only [hu] at h
        obtain ⟨hany1, hr1⟩ := update_player_ok r _ r1 hu
        have hepid : ep.id = p.id := (get_player_ok r p.id ep hep).1
        have haddid : (ep.add_stats p.play_count p.play_duration).id = p.id :=
          hepid
        have h1 : r1.get_player p.id =
            Except.ok (ep.add_stats p.play_count p.play_duration) := by
          rw [hr1, ← haddid]
          exact get_player_after_update_same r _ hany1
        have hx : ∀ q2 ∈ rest, q2.id ≠ p.id := by
          intro q2 hq2 hc
          exact hqrest (hc ▸ List.mem_map_of_mem Player.id hq2)
        rw [foldStats_preserves_get rest r1 r2 p.id h hx, h1]
    · cases hg : r.get_player q.id with
      | error e =>
        simp only [hg] at h
        exact ih r h hrestnd p hmem ep hep
      | ok eq2 =>
        simp only [hg] at h
        cases hu : r.update_player (eq2.add_stats q.play_count q.play_duration) with
        | error e =>
          simp only [hu] at h
          exact absurd h (by simp)
        | ok r1 =>
          simp only [hu] at h
          obtain ⟨hany1, hr1⟩ := update_player_ok r _ r1 hu
          have heq : eq2.id = q.id := (get_player_ok r q.id eq2 hg).1
          have hne : p.id ≠ (eq2.add_stats q.play_count q.play_duration).id := by
            have h2 : (eq2.add_stats q.play_count q.play_duration).id = q.id :=
              heq
            rw [h2]
            intro hc
            exact hqrest (hc ▸ List.mem_map_of_mem Player.id hmem)
          have h1 : r1.get_player p.id = r.get_player p.id := by
            rw [hr1]
            exact get_player_after_update_other r _ p.id hne
          exact ih r1 h hrestnd p hmem ep (h1 ▸ hep)

/-- C4: when `Service::end_game` succeeds (and the roster ids are distinct),
the returned game is Finished, every roster player in it has
`play_start_time` unset, the updated game is persisted under its id, and
every roster player whose record exists in storage has had that record
increased by the player's final per-game `play_count` and `play_duration`
via `add_stats`. -/
theorem C4_end_game_effects (r : Repo) (game_id : Nat) (c : Clock) (g2 : Game)
    (r2 : Repo) (c2 : Clock)
    (hok : Service.end_game r game_id c = Except.ok (g2, r2, c2))
    (hnodup : (g2.shared.players.map Player.id).Nodup) :
    g2.state.kind = GameState.Finished ∧
    (∀ p ∈ g2.shared.players, p.play_start_time = none) ∧
    r2.get_game game_id = Except.ok g2 ∧
    (∀ p ∈ g2.shared.players, ∀ ep, r.get_player p.id = Except.ok ep →
      r2.get_player p.id =
        Except.ok (ep.add_stats p.play_count p.play_duration)) := by
  cases hget : r.get_game game_id with
  | error e => simp [Service.end_game, hget] at hok
  | ok game0 =>
    cases hev : game0.on_event Event.EndGame c with
    | error err =>
      cases err <;> simp [Service.end_game, hget, hev] at hok
    | ok v =>
      obtain ⟨game1, c1⟩ := v
      cases hup : r.update_game (endGameRosterGame game1 c1) with
      | error e => simp [Service.end_game, hget, hev, hup] at hok
      | ok r1 =>
        cases hfold : foldStats r1 (endGameRosterGame game1 c1).shared.players with
        | error e => simp [Service.end_game, hget, hev, hup, hfold] at hok
        | ok r2x =>
          simp only [Service.end_game, hget, hev, hup, hfold,
            Except.ok.injEq, Prod.mk.injEq] at hok
          obtain ⟨rfl, rfl, rfl⟩ := hok
          obtain ⟨hkind, hid1⟩ := on_event_end_game_kind game0 c game1 c1 hev
          obtain ⟨hid0, hany0⟩ := get_game_ok r game_id game0 hget
          obtain ⟨hanyu, hr1⟩ := update_game_ok r _ r1 hup
          have hg2id : (endGameRosterGame game1 c1).id = game_id := by
            rw [endGameRosterGame]
            exact hid1.trans hid0
          have hr1players : r1.players = r.players := by
            rw [hr1]
          refine ⟨hkind, ?_, ?_, ?_⟩
          · intro p hp
            exact subOffAll_clears game1.shared.players c1 p hp
          · have hgames : r2x.games =
                replaceById Game.id (endGameRosterGame game1 c1) r.games := by
              rw [foldStats_games (endGameRosterGame game1 c1).shared.players
                r1 r2x hfold, hr1]
            unfold Repo.get_game
            rw [hgames,
              show game_id = (endGameRosterGame game1 c1).id from hg2id.symm,
              find_replaceById_same Game.id (endGameRosterGame game1 c1)
                r.games hanyu]
          · intro p hp ep hep
            have hep1 : r1.get_player p.id = Except.ok ep := by
              unfold Repo.get_player at hep ⊢
              rw [hr1players]
              exact hep
            exact foldStats_adds (endGameRosterGame game1 c1).shared.players r1
              r2x hfold hnodup p hp ep hep1

/-- The C4 witness store: one InProgress game whose only roster player is on
court, and one stored player record. -/
def c4Repo0 : Repo :=
  ⟨[⟨1, ⟨[⟨0, none⟩], [⟨5, "A", 7, 1, some 0, 0⟩], none⟩,
      State.InProgress ⟨0⟩⟩],
   [⟨5, "A", 7, 10, none, 100⟩]⟩

/-- The game returned by `end_game` on the C4 witness store. -/
def c4Game2 : Game :=
  ⟨1, ⟨[⟨0, some 2⟩], [⟨5, "A", 7, 1, none, 4⟩], none⟩,
    State.Finished ⟨0, 3⟩⟩

/-- The store after `end_game` on the C4 witness store. -/
def c4Repo2 : Repo :=
  ⟨[c4Game2], [⟨5, "A", 7, 11, none, 104⟩]⟩

/-- C4 witness: `end_game` on the concrete store succeeds and the theorem's
conclusions hold there. -/
theorem C4_end_game_effects_witness :
    c4Game2.state.kind = GameState.Finished ∧
    (∀ p ∈ c4Game2.shared.players, p.play_start_time = none) ∧
    c4Repo2.get_game 1 = Except.ok c4Game2 ∧
    (∀ p ∈ c4Game2.shared.players, ∀ ep,
      c4Repo0.get_player p.id = Except.ok ep →
      c4Repo2.get_player p.id =
        Except.ok (ep.add_stats p.play_count p.play_duration)) :=
  C4_end_game_effects c4Repo0 1 ⟨fun j => j, 2⟩ c4Game2 c4Repo2
    ⟨fun j => j, 5⟩ rfl (by decide)

end Subbers
